import Mathlib

/-!
Verification of the reactive-stream core of the repository (src/rxjs):
Subscriber/Subscription, Observable.subscribe, the operators map/filter/take,
fromArrayLike, Subject, Scheduler/AsyncAction and timer/interval.

The embedding is a shallow one: every producer, operator and method of the
TypeScript source is translated into an executable Lean function over an
explicit state, and the observable behavior of a run is its trace of observer
invocations.  Machine execution is single threaded and synchronous in the
source (timer callbacks are modelled as explicit tick steps), so traces are
plain lists.
-/

namespace GRxjs

/-- Values carried by streams (the demo pipelines use numbers). -/
abbrev Val := Int

/-- One observer-method invocation: next(v), error(e) or complete(). -/
inductive Event where
  | next (v : Val)
  | error (e : Val)
  | complete
deriving DecidableEq, Repr

/-- The capability set of a destination observer (ISubscriber in
Subscriber.ts): which of the optional members next / error / complete the
observer actually has.  Calling an absent member through optional chaining is
a no-op in the source. -/
structure Caps where
  hasNext : Bool
  hasError : Bool
  hasComplete : Bool
deriving DecidableEq, Repr

/-- An observer implementing all three members. -/
def fullCaps : Caps := ⟨true, true, true⟩

/-- Subscriber.ts: a Subscriber owns a destination observer (its capability
set), the isStopped flag, and (inherited from Subscription.ts) the ordered
_finalizers teardown registry, modelled as a list of teardown tokens. -/
structure Subscriber where
  isStopped : Bool
  dest : Caps
  finalizers : List Nat
deriving DecidableEq, Repr

/-- Subscriber constructor: isStopped starts false, the teardown registry
starts empty, and the destination is the normalized observer. -/
def newSubscriber (dest : Caps) : Subscriber := ⟨false, dest, []⟩

/-- Subscriber.next(value): forwarded to destination.next (if present) only
when isStopped is false; returns the new subscriber state and the destination
invocations made. -/
def Subscriber.onNext (s : Subscriber) (v : Val) : Subscriber × List Event :=
  if s.isStopped then (s, [])
  else (s, if s.dest.hasNext then [Event.next v] else [])

/-- Subscriber.error(err): forwarded to destination.error (if present)
unconditionally; neither checks nor sets isStopped. -/
def Subscriber.onError (s : Subscriber) (e : Val) : Subscriber × List Event :=
  (s, if s.dest.hasError then [Event.error e] else [])

/-- Subscriber.complete(): when not already stopped, sets isStopped and
forwards to destination.complete (if present); otherwise a no-op. -/
def Subscriber.onComplete (s : Subscriber) : Subscriber × List Event :=
  if s.isStopped then (s, [])
  else ({ s with isStopped := true }, if s.dest.hasComplete then [Event.complete] else [])

/-- Dispatch one incoming method call on a Subscriber. -/
def Subscriber.step (s : Subscriber) : Event → Subscriber × List Event
  | Event.next v => s.onNext v
  | Event.error e => s.onError e
  | Event.complete => s.onComplete

/-- Run a sequence of incoming method calls through a Subscriber, collecting
the destination invocations in order. -/
def Subscriber.run : Subscriber → List Event → Subscriber × List Event
  | s, [] => (s, [])
  | s, e :: es =>
    let r1 := s.step e
    let r2 := Subscriber.run r1.1 es
    (r2.1, r1.2 ++ r2.2)

/-- Subscription.unsubscribe(): runs every registered teardown in insertion
order; it does not clear the registry, does not set isStopped and does not
touch any other state.  The result is the (unchanged) subscriber and the list
of teardowns that ran. -/
def Subscriber.unsubscribeRun (s : Subscriber) : Subscriber × List Nat :=
  (s, s.finalizers)

/-- Observable.ts subscribe, for a producer that runs synchronously: build a
Subscriber around the normalized observer, invoke the producer (whose calls on
the subscriber are the list calls and whose returned teardown is td, none when
it returns undefined), register the teardown if one was returned, and return
the subscriber together with the events delivered to the destination observer.
All of this happens before subscribe returns. -/
def subscribeSync (calls : List Event) (td : Option Nat) (dest : Caps) :
    Subscriber × List Event :=
  let r := (newSubscriber dest).run calls
  (match td with
   | some t => { r.1 with finalizers := r.1.finalizers ++ [t] }
   | none => r.1,
   r.2)

/-- fromArrayLike.ts: the producer loops over the indexable elements calling
next on each, then calls complete; the producer body returns undefined, so no
teardown is registered. -/
def fromArrayLikeCalls (a : List Val) : List Event :=
  a.map Event.next ++ [Event.complete]

/-- Subscribing to fromArrayLike(a) with an observer of capability set dest:
the producer runs synchronously inside subscribe (calls fromArrayLikeCalls,
teardown none). -/
def fromArrayLikeSubscribe (a : List Val) (dest : Caps) : Subscriber × List Event :=
  subscribeSync (fromArrayLikeCalls a) none dest

/-- Modelled from the spec: of(...) is exported by the library entry point but
its implementation file is not under src/.  The spec lists of among the source
adapters that lift values into a stream and its scenario expects of(1,2,3,4,5)
to supply 1..5 then complete, which is exactly the calls fromArrayLike makes
on its subscriber for the argument list. -/
def ofCalls (vs : List Val) : List Event := fromArrayLikeCalls vs

/-- The capability set obtained by object-spreading a Subscriber instance in
map/filter/take (the derived observer passed to source.subscribe, before its
next member is overridden).  Object spread copies only own enumerable
properties; a Subscriber instance owns the class fields destination, isStopped
and _finalizers, while next, error and complete are prototype methods and are
not copied.  The override then installs a next member, so the derived observer
has next but neither error nor complete. -/
def spreadCaps : Caps := ⟨true, false, false⟩

/-- The values the derived Subscriber built inside map/filter/take forwards to
its destination (the spread-plus-override object), given the calls the source
producer makes on it.  Only next survives: the derived subscriber stops itself
on an upstream complete and its destination has no error or complete member. -/
def gatedNexts (upstream : List Event) : List Val :=
  ((newSubscriber spreadCaps).run upstream).2.filterMap
    (fun e => match e with | Event.next v => some v | _ => none)

/-- take.ts (map, stored in the same source file): the override forwards
project(value) for every value reaching the derived observer; the resulting
calls made on the downstream subscriber. -/
def mapCalls (project : Val → Val) (upstream : List Event) : List Event :=
  (gatedNexts upstream).map (fun v => Event.next (project v))

/-- filter.ts: the override forwards value only when predicate(value) is
true; the resulting calls made on the downstream subscriber. -/
def filterCalls (predicate : Val → Bool) (upstream : List Event) : List Event :=
  (gatedNexts upstream).filterMap
    (fun v => if predicate v then some (Event.next v) else none)

/-- take.ts: per incoming value the override checks count > 0, increments
seen, calls subscriber.next(value), and calls subscriber.complete() whenever
seen >= count.  seen starts at 0 and incoming values keep arriving (the
operator never unsubscribes upstream), so later values still produce next and
complete calls, which the downstream subscriber drops once stopped. -/
def takeCallsAux (count : Int) : Nat → List Val → List Event
  | _, [] => []
  | seen, v :: vs =>
    if 0 < count then
      Event.next v ::
        ((if count ≤ (seen : Int) + 1 then [Event.complete] else []) ++
          takeCallsAux count (seen + 1) vs)
    else takeCallsAux count seen vs

/-- take(count): the calls the take stage makes on the downstream subscriber,
given the calls the source producer makes on the derived observer. -/
def takeCalls (count : Int) (upstream : List Event) : List Event :=
  takeCallsAux count 0 (gatedNexts upstream)

/-- Events an observer of capability set dest receives when subscribed
downstream of take(count) over a source making the calls upstream. -/
def deliveredTake (count : Int) (upstream : List Event) (dest : Caps) : List Event :=
  (subscribeSync (takeCalls count upstream) none dest).2

/-- Closed-form specification (written from the spec sentence, to be compared
with the source translation): downstream of take(count) a full observer
receives the first count source values followed by complete when at least
count values arrive; for count <= 0 it receives nothing. -/
def takeSpecDelivered (count : Int) (vs : List Val) : List Event :=
  if 0 < count then
    (vs.take count.toNat).map Event.next ++
      (if count ≤ (vs.length : Int) then [Event.complete] else [])
  else []

/-- The spec scenario pipeline of(1,2,3,4,5).pipe(map(x*2), filter(x>4),
map(x+1)): pipe folds the operators left to right, so the calls reaching the
final subscriber are the three stages composed in that order. -/
def scenarioCalls : List Event :=
  mapCalls (fun v => v + 1)
    (filterCalls (fun v => decide (4 < v))
      (mapCalls (fun v => v * 2) (ofCalls [1, 2, 3, 4, 5])))

/-- What the collecting observer of the spec scenario receives. -/
def scenarioDelivered : List Event :=
  (subscribeSync scenarioCalls none fullCaps).2

/-- Subject.ts: one entry of the internal subscribers array, a live reference
to a Subscriber built by Observable.subscribe; id identifies the observer the
entry was built around so deliveries can be attributed. -/
structure SubjectEntry where
  id : Nat
  sub : Subscriber
deriving DecidableEq, Repr

/-- Subject.ts: the Subject owns an ordered list of currently registered
Subscribers; the list is never cleared and carries no closed flag. -/
structure Subject where
  subscribers : List SubjectEntry
deriving DecidableEq, Repr

/-- Subject.next(value): the for-of loop over the current list, calling each
member's next in registration order; deliveries are tagged with the entry id. -/
def subjNextList (v : Val) : List SubjectEntry → List SubjectEntry × List (Nat × Event)
  | [] => ([], [])
  | p :: ps =>
    let r1 := p.sub.onNext v
    let r2 := subjNextList v ps
    (⟨p.id, r1.1⟩ :: r2.1, r1.2.map (fun e => (p.id, e)) ++ r2.2)

/-- Subject.complete(): the for-of loop calling each member's complete. -/
def subjCompleteList : List SubjectEntry → List SubjectEntry × List (Nat × Event)
  | [] => ([], [])
  | p :: ps =>
    let r1 := p.sub.onComplete
    let r2 := subjCompleteList ps
    (⟨p.id, r1.1⟩ :: r2.1, r1.2.map (fun e => (p.id, e)) ++ r2.2)

/-- Subject.next on the Subject state. -/
def Subject.nextS (s : Subject) (v : Val) : Subject × List (Nat × Event) :=
  let r := subjNextList v s.subscribers
  (⟨r.1⟩, r.2)

/-- Subject.complete on the Subject state. -/
def Subject.completeS (s : Subject) : Subject × List (Nat × Event) :=
  let r := subjCompleteList s.subscribers
  (⟨r.1⟩, r.2)

/-- subject.subscribe(observer): Observable.subscribe builds a fresh
Subscriber around the observer and invokes the Subject's producer, which
pushes the Subscriber onto the list and returns undefined, so no teardown is
registered and nothing is delivered; the returned handle is that same
Subscriber object, aliased with the list entry, modelled by its index. -/
def Subject.subscribeS (s : Subject) (id : Nat) (dest : Caps) : Subject × Nat :=
  (⟨s.subscribers ++ [⟨id, newSubscriber dest⟩]⟩, s.subscribers.length)

/-- Calling unsubscribe() on the handle returned by subject.subscribe: the
handle aliases the list entry at the returned index; Subscription.unsubscribe
runs its finalizers (and changes nothing else), so the entry is written back
unchanged and the Subject keeps it in the list. -/
def Subject.unsubscribeHandle (s : Subject) (i : Nat) : Subject × List Nat :=
  match s.subscribers.get? i with
  | some p =>
    let r := p.sub.unsubscribeRun
    (⟨s.subscribers.set i ⟨p.id, r.1⟩⟩, r.2)
  | none => (s, [])

/-- Platform repeating timers (setInterval / clearInterval): live holds the
pending intervals as pairs of handle and period; handles are the positive
integers a JS host returns, so a stored handle is never the falsy 0. -/
structure Timers where
  nextId : Nat
  live : List (Nat × Int)
deriving DecidableEq, Repr

/-- setInterval(execute, delay): returns a fresh positive handle and records
the repeating timer. -/
def setIntervalT (ts : Timers) (delay : Int) : Nat × Timers :=
  (ts.nextId + 1, ⟨ts.nextId + 1, ts.live ++ [(ts.nextId + 1, delay)]⟩)

/-- clearInterval(h): cancels the pending interval with handle h. -/
def clearIntervalT (ts : Timers) (h : Nat) : Timers :=
  ⟨ts.nextId, ts.live.filter (fun p => p.1 ≠ h)⟩

/-- JS truthiness of the _id field: null is falsy and a numeric handle is
falsy exactly when it is 0. -/
def idTruthy : Option Nat → Bool
  | none => false
  | some h => h != 0

/-- AsyncAction.ts: the mutable fields of an AsyncAction.  The _work function
is held separately by the model (storing it in the structure would block
decidable equality); _state is the arbitrary state payload with none for
undefined and null. -/
structure AsyncAction where
  _id : Option Nat
  _state : Option Int
  _delay : Int
  _padding : Bool
deriving DecidableEq, Repr

/-- AsyncAction.schedule(state, delay): store delay and state; if a truthy
timer handle exists, clearInterval it and null the field (recycledAsyncId);
set the reentrancy flag _padding; start a new repeating timer at _delay
(requestAsyncId).  The method body has no return statement. -/
def AsyncAction.scheduleA (a : AsyncAction) (ts : Timers) (state : Option Int)
    (delay : Int) : AsyncAction × Timers :=
  let a1 : AsyncAction := { a with _delay := delay, _state := state }
  let r2 : AsyncAction × Timers :=
    if idTruthy a1._id then ({ a1 with _id := none }, clearIntervalT ts (a1._id.getD 0))
    else (a1, ts)
  let a3 : AsyncAction := { r2.1 with _padding := true }
  let r4 := setIntervalT r2.2 a3._delay
  ({ a3 with _id := some r4.1 }, r4.2)

/-- The primitive effects a work function can perform during a tick that this
model observes: calling this.schedule(state, delay), or invoking a method of
the captured subscriber (recorded as an emitted event). -/
inductive WorkOp where
  | sched (state : Option Int) (delay : Int)
  | emit (e : Event)
deriving DecidableEq, Repr

/-- Whether a work op is a this.schedule call. -/
def isSchedOp : WorkOp → Bool
  | WorkOp.sched _ _ => true
  | WorkOp.emit _ => false

/-- Run the operations a work function performs, threading the action (the
receiver of this.schedule) and the timers, and collecting emitted events. -/
def runWorkOps : AsyncAction → Timers → List WorkOp → AsyncAction × Timers × List Event
  | a, ts, [] => (a, ts, [])
  | a, ts, WorkOp.sched st d :: ops =>
    let r1 := a.scheduleA ts st d
    runWorkOps r1.1 r1.2 ops
  | a, ts, WorkOp.emit e :: ops =>
    let r := runWorkOps a ts ops
    (r.1, r.2.1, e :: r.2.2)

/-- AsyncAction.execute (the tick handler): set _padding to false, invoke
_work with the action as receiver and _state as argument, and afterwards, if
_id is truthy and _padding is still false, clearInterval the handle and null
the field. -/
def AsyncAction.executeA (work : Option Int → List WorkOp) (a : AsyncAction)
    (ts : Timers) : AsyncAction × Timers × List Event :=
  let a1 : AsyncAction := { a with _padding := false }
  let r := runWorkOps a1 ts (work a1._state)
  if idTruthy r.1._id ∧ r.1._padding = false then
    ({ r.1 with _id := none }, clearIntervalT r.2.1 (r.1._id.getD 0), r.2.2)
  else r

/-- Scheduler.ts schedule(work, delay = 0, state?): construct a new action
from the bound action constructor (all fields at their initial values) and
evaluate `return action.schedule(state, delay)`.  AsyncAction.schedule has no
return statement, so the JS value of the whole call is undefined, modelled as
the none in the second component; the first component is the armed action and
timer state the call leaves behind. -/
def schedulerSchedule (ts : Timers) (state : Option Int) (delay : Int) :
    (AsyncAction × Timers) × Option AsyncAction :=
  (AsyncAction.scheduleA ⟨none, none, 0, false⟩ ts state delay, none)

/-- timer.ts argument dispatch: the second argument is a number, a Scheduler
or absent. -/
inductive IntervalOrScheduler where
  | num (k : Int)
  | schedArg
deriving DecidableEq, Repr

/-- timer.ts: intervalDuration starts at -1 and is replaced by the second
argument only when that argument is truthy (0 is falsy) and a number. -/
def timerIntervalDuration : Option IntervalOrScheduler → Int
  | none => -1
  | some (IntervalOrScheduler.num k) => if k == 0 then -1 else k
  | some IntervalOrScheduler.schedArg => -1

/-- The configuration a timer(dueTime, intervalOrScheduler, scheduler) call
computes before building its Observable. -/
structure TimerConfig where
  dueTime : Int
  intervalDuration : Int
deriving DecidableEq, Repr

/-- timer.ts configuration from the call arguments. -/
def timerConfig (dueTime : Int) (ios : Option IntervalOrScheduler) : TimerConfig :=
  ⟨dueTime, timerIntervalDuration ios⟩

/-- interval.ts: interval(period, scheduler) is the call
timer(period, period, scheduler). -/
def intervalConfig (period : Int) : TimerConfig :=
  timerConfig period (some (IntervalOrScheduler.num period))

/-- The operations timer's work function performs on the k-th tick, where n
is the captured counter: subscriber.next(n++), then this.schedule(null,
intervalDuration) when the interval is positive, else subscriber.complete(). -/
def timerWorkOps (intervalDuration : Int) (n : Nat) : List WorkOp :=
  WorkOp.emit (Event.next (n : Int)) ::
    (if 0 < intervalDuration then [WorkOp.sched none intervalDuration]
     else [WorkOp.emit Event.complete])

/-- A running timer subscription: the action and platform timers, the
captured counter n, and the calls made on the subscriber so far. -/
structure TimerRun where
  act : AsyncAction
  ts : Timers
  n : Nat
  trace : List Event
deriving DecidableEq, Repr

/-- Subscribing to timer(cfg): the producer sets n to 0 and calls
scheduler.schedule(work, dueTime), which arms a fresh action at delay
dueTime. -/
def timerSubscribe (cfg : TimerConfig) (ts : Timers) : TimerRun :=
  let r := AsyncAction.scheduleA ⟨none, none, 0, false⟩ ts none cfg.dueTime
  ⟨r.1, r.2, 0, []⟩

/-- One platform tick of the armed action: execute runs the timer work for
the current counter, which emits next(n) and either reschedules or
completes; the counter advances and the emitted calls extend the trace. -/
def timerTick (cfg : TimerConfig) (r : TimerRun) : TimerRun :=
  let e := AsyncAction.executeA (fun _ => timerWorkOps cfg.intervalDuration r.n) r.act r.ts
  ⟨e.1, e.2.1, r.n + 1, r.trace ++ e.2.2⟩

/-- The timer subscription after m ticks. -/
def timerRun (cfg : TimerConfig) (ts : Timers) : Nat → TimerRun
  | 0 => timerSubscribe cfg ts
  | m + 1 => timerTick cfg (timerRun cfg ts m)

/-- A list of events that contains no error invocation. -/
def noError (l : List Event) : Prop := ∀ e, Event.error e ∉ l

/-! Basic run lemmas. -/

theorem run_nil (s : Subscriber) : s.run [] = (s, []) := rfl

theorem run_cons (s : Subscriber) (e : Event) (es : List Event) :
    s.run (e :: es) = (((s.step e).1.run es).1, (s.step e).2 ++ ((s.step e).1.run es).2) := rfl

theorem run_append (s : Subscriber) (l1 l2 : List Event) :
    s.run (l1 ++ l2) = (((s.run l1).1.run l2).1, (s.run l1).2 ++ ((s.run l1).1.run l2).2) := by
  induction l1 generalizing s with
  | nil => simp [run_nil]
  | cons e es ih => simp [run_cons, ih, List.append_assoc]

/-- Running calls never changes the destination or the teardown registry:
only isStopped evolves. -/
theorem run_preserves (s : Subscriber) (l : List Event) :
    ((s.run l).1.dest = s.dest ∧ (s.run l).1.finalizers = s.finalizers) := by
  induction l generalizing s with
  | nil => simp [run_nil]
  | cons e es ih =>
    have hstep : (s.step e).1.dest = s.dest ∧ (s.step e).1.finalizers = s.finalizers := by
      cases e with
      | next v =>
        simp only [Subscriber.step, Subscriber.onNext]
        split <;> simp
      | error e =>
        simp only [Subscriber.step, Subscriber.onError]
        simp
      | complete =>
        simp only [Subscriber.step, Subscriber.onComplete]
        split <;> simp
    rw [run_cons]
    simp only
    rcases ih (s.step e).1 with ⟨h1, h2⟩
    rcases hstep with ⟨h3, h4⟩
    exact ⟨h1.trans h3, h2.trans h4⟩

/-- An unstopped subscriber whose destination has next delivers a block of
next calls unchanged and stays unstopped. -/
theorem run_nexts (s : Subscriber) (hs : s.isStopped = false) (hn : s.dest.hasNext = true)
    (vs : List Val) :
    s.run (vs.map Event.next) = (s, vs.map Event.next) := by
  induction vs with
  | nil => simp [run_nil]
  | cons v vs ih =>
    have hstep : s.step (Event.next v) = (s, [Event.next v]) := by
      simp [Subscriber.step, Subscriber.onNext, hs, hn]
    simp [run_cons, hstep, ih]

/-- A stopped subscriber drops every next and complete call; only error calls
can still reach the destination. -/
theorem run_stopped (s : Subscriber) (hs : s.isStopped = true) (l : List Event)
    (hl : noError l) : s.run l = (s, []) := by
  induction l generalizing s with
  | nil => simp [run_nil]
  | cons e es ih =>
    have hstep : s.step e = (s, []) := by
      cases e with
      | next v => simp [Subscriber.step, Subscriber.onNext, hs]
      | error e => exact absurd (List.mem_cons_self _ _) (fun h => hl e h)
      | complete => simp [Subscriber.step, Subscriber.onComplete, hs]
    have hes : noError es := fun e he => hl e (List.mem_cons_of_mem _ he)
    simp [run_cons, hstep, ih s hs hes]

/-- Delivering a block of next calls followed by complete through a fresh
full-capability Subscriber forwards everything unchanged. -/
theorem run_nexts_complete (dest : Caps) (hn : dest.hasNext = true)
    (hc : dest.hasComplete = true) (vs : List Val) :
    (newSubscriber dest).run (vs.map Event.next ++ [Event.complete])
      = (⟨true, dest, []⟩, vs.map Event.next ++ [Event.complete]) := by
  rw [run_append, run_nexts (newSubscriber dest) rfl hn]
  simp [run_cons, run_nil, Subscriber.step, Subscriber.onComplete, newSubscriber, hc]

/-- C8: for every array-like A, subscribing to fromArrayLike(A) delivers next
on each element in index order and then complete, all produced synchronously
by the producer inside the subscribe call (the model computes the whole trace
within subscribeSync), and the subscription ends with an empty teardown
registry because the producer returns undefined. -/
theorem c8_fromArrayLike_sync (a : List Val) :
    (fromArrayLikeSubscribe a fullCaps).2 = a.map Event.next ++ [Event.complete]
      ∧ (fromArrayLikeSubscribe a fullCaps).1.finalizers = [] := by
  unfold fromArrayLikeSubscribe subscribeSync fromArrayLikeCalls
  rw [run_nexts_complete fullCaps rfl rfl]
  simp

/-- C4: once complete() has run on a Subscriber, isStopped is true, later
next calls forward nothing, and complete is idempotent (a later call is a
no-op returning the same state); error, by contrast, neither checks nor sets
isStopped: it forwards to the destination's error member whenever that member
exists, the state is unchanged, a second error forwards again, and an error
after complete still forwards. -/
theorem c4_subscriber_lifecycle (s : Subscriber) (v e : Val) :
    s.onComplete.1.isStopped = true
      ∧ (s.onComplete.1.onNext v).2 = []
      ∧ s.onComplete.1.onComplete = (s.onComplete.1, [])
      ∧ (s.onError e).1 = s
      ∧ (s.onError e).2 = (if s.dest.hasError = true then [Event.error e] else [])
      ∧ (s.onComplete.1.onError e).2 = (s.onError e).2
      ∧ s.run [Event.error e, Event.error e] = (s, (s.onError e).2 ++ (s.onError e).2) := by
  cases hs : s.isStopped <;>
    simp [Subscriber.onComplete, Subscriber.onNext, Subscriber.onError, Subscriber.run,
      Subscriber.step, hs]

/-- C1 counterexample: the spec scenario pipeline delivers next 7, 9, 11 to
the collecting observer but complete is delivered zero times, not exactly
once: the upstream completion of of(1,2,3,4,5) dies at the first map stage
because the spread-derived observer has no complete member. -/
theorem c1_counterexample :
    scenarioDelivered = [Event.next 7, Event.next 9, Event.next 11]
      ∧ ¬ scenarioDelivered.count Event.complete = 1 := by
  decide

/-- C1 amended: subscribing to the scenario pipeline invokes the observer's
next with exactly the values 7, 9, 11 in that order and never invokes its
complete (the operators forward no completion). -/
theorem c1_scenario_values :
    scenarioDelivered = [Event.next 7, Event.next 9, Event.next 11]
      ∧ scenarioDelivered.count Event.complete = 0 := by
  decide

/-- C2: Scheduler.schedule(work, delay, state) does construct a fresh action
and arm it through action.schedule(state, delay) -- the action ends with a
truthy handle to a pending repeating timer at the requested delay and holds
the given state -- but the value the caller receives is none (undefined),
because AsyncAction.schedule has no return statement; the caller never gets
the action handle it would need to cancel the pending execution. -/
theorem c2_schedule_returns_undefined (ts : Timers) (st : Option Int) (d : Int) :
    (schedulerSchedule ts st d).2 = none
      ∧ (schedulerSchedule ts st d).1.1._id = some (ts.nextId + 1)
      ∧ (schedulerSchedule ts st d).1.1._state = st
      ∧ (schedulerSchedule ts st d).1.1._delay = d
      ∧ (ts.nextId + 1, d) ∈ (schedulerSchedule ts st d).1.2.live := by
  simp [schedulerSchedule, AsyncAction.scheduleA, idTruthy, setIntervalT]

/-- Closed form of Subject.next: the iteration delivers next v exactly to the
currently listed subscribers that are unstopped and have a next member, one
delivery each, in registration order. -/
theorem subj_next_closed (v : Val) (l : List SubjectEntry) :
    (subjNextList v l).2
      = (l.filter (fun p => !p.sub.isStopped && p.sub.dest.hasNext)).map
          (fun p => (p.id, Event.next v)) := by
  induction l with
  | nil => simp [subjNextList]
  | cons p ps ih =>
    cases hs : p.sub.isStopped <;> cases hn : p.sub.dest.hasNext <;>
      simp [subjNextList, Subscriber.onNext, hs, hn, List.filter_cons, ih]

/-- Subject.next leaves every listed subscriber state unchanged. -/
theorem subj_next_states (v : Val) (l : List SubjectEntry) :
    (subjNextList v l).1 = l := by
  induction l with
  | nil => simp [subjNextList]
  | cons p ps ih =>
    cases hs : p.sub.isStopped <;>
      simp [subjNextList, Subscriber.onNext, hs, ih]

/-- After Subject.complete, every listed subscriber is stopped. -/
theorem subj_complete_stops (l : List SubjectEntry) :
    ∀ q ∈ (subjCompleteList l).1, q.sub.isStopped = true := by
  induction l with
  | nil => simp [subjCompleteList]
  | cons p ps ih =>
    intro q hq
    simp only [subjCompleteList, List.mem_cons] at hq
    rcases hq with hq | hq
    · subst hq
      cases hs : p.sub.isStopped <;>
        simp [Subscriber.onComplete, hs]
    · exact ih q hq

/-- C5 counterexample: on a fresh Subject, calling complete(), then
registering an observer, then calling next(5) delivers next 5 to the observer
that registered after complete() -- it does receive a further event, because
the Subject neither removes entries nor marks itself exhausted and the late
Subscriber was never stopped. -/
theorem c5_counterexample :
    (((((Subject.mk []).completeS).1.subscribeS 0 fullCaps).1.nextS 5)).2
      = [(0, Event.next 5)]
      ∧ ¬ (((((Subject.mk []).completeS).1.subscribeS 0 fullCaps).1.nextS 5)).2 = [] := by
  decide

/-- C5 amended: a Subject delivers a given next(v) call only to subscribers
registered before that call, in registration order; registering delivers
nothing to the new subscriber (in particular a subscriber joining after
complete() observes no completion and nothing else at registration), but a
next(v) issued after such a late registration does reach the late subscriber:
the subscribers listed before the completion are all stopped, so the
delivery list of that next is exactly the one delivery to the late
subscriber. -/
theorem c5_subject_delivery (s : Subject) (v : Val) (id : Nat) (dest : Caps) :
    (s.nextS v).2
        = (s.subscribers.filter (fun p => !p.sub.isStopped && p.sub.dest.hasNext)).map
            (fun p => (p.id, Event.next v))
      ∧ (s.subscribeS id dest).1.subscribers
          = s.subscribers ++ [⟨id, newSubscriber dest⟩]
      ∧ ((((s.completeS).1.subscribeS id fullCaps).1.nextS v)).2
          = [(id, Event.next v)] := by
  refine ⟨subj_next_closed v s.subscribers, rfl, ?_⟩
  simp only [Subject.nextS, Subject.subscribeS, Subject.completeS]
  rw [subj_next_closed]
  rw [List.filter_append]
  have h1 : ((subjCompleteList s.subscribers).1.filter
      (fun p => !p.sub.isStopped && p.sub.dest.hasNext)) = [] := by
    rw [List.filter_eq_nil_iff]
    intro q hq
    simp [subj_complete_stops s.subscribers q hq]
  rw [h1]
  simp [newSubscriber, fullCaps]

/-- With a non-positive count the take override forwards nothing at all. -/
theorem take_aux_nonpos (count : Int) (hc : count ≤ 0) (seen : Nat) (vs : List Val) :
    takeCallsAux count seen vs = [] := by
  induction vs generalizing seen with
  | nil => rfl
  | cons v rest ih =>
    simp only [takeCallsAux, if_neg (show ¬ (0:Int) < count from by omega)]
    exact ih seen

/-- The take override never produces an error call. -/
theorem take_aux_no_error (count : Int) (seen : Nat) (vs : List Val) :
    noError (takeCallsAux count seen vs) := by
  induction vs generalizing seen with
  | nil => intro e he; simp [takeCallsAux] at he
  | cons v rest ih =>
    intro e he
    by_cases hc : 0 < count
    · simp only [takeCallsAux, if_pos hc, List.mem_cons, List.mem_append] at he
      rcases he with he | he | he
      · cases he
      · split at he <;> simp_all
      · exact ih (seen + 1) e he
    · simp only [takeCallsAux, if_neg hc] at he
      exact ih seen e he

/-- The take override emits a complete call exactly when the count is positive
and enough values arrive to reach it. -/
theorem take_aux_complete_mem (count : Int) (vs : List Val) (seen : Nat) :
    Event.complete ∈ takeCallsAux count seen vs
      ↔ (0 < count ∧ count ≤ (seen : Int) + vs.length ∧ vs ≠ []) := by
  induction vs generalizing seen with
  | nil => simp [takeCallsAux]
  | cons v rest ih =>
    by_cases hc : 0 < count
    · simp only [takeCallsAux, if_pos hc, List.mem_cons, List.mem_append, ih (seen + 1)]
      rcases rest with _ | ⟨w, ws⟩ <;>
        by_cases hc2 : count ≤ (seen : Int) + 1 <;>
          simp [hc2, hc] <;> omega
    · rw [take_aux_nonpos count (by omega) seen]
      simp [hc]

/-- Running the take override's output through an unstopped full-capability
downstream subscriber delivers the first count - seen values followed by one
complete when enough values arrive; everything the override keeps emitting
after that is dropped by the stopped subscriber. -/
theorem take_aux_run (count : Int) (vs : List Val) :
    ∀ (seen : Nat) (f : List Nat), 0 < count → (seen : Int) < count →
    ((⟨false, fullCaps, f⟩ : Subscriber).run (takeCallsAux count seen vs)).2
      = (vs.take (count - seen).toNat).map Event.next ++
        (if count ≤ (seen : Int) + vs.length then [Event.complete] else []) := by
  induction vs with
  | nil =>
    intro seen f hc hseen
    simp only [takeCallsAux, run_nil, List.take_nil, List.map_nil, List.length_nil,
      List.nil_append]
    rw [if_neg (by omega)]
  | cons v rest ih =>
    intro seen f hc hseen
    simp only [takeCallsAux, if_pos hc]
    rw [run_cons]
    have hstep : (⟨false, fullCaps, f⟩ : Subscriber).step (Event.next v)
        = (⟨false, fullCaps, f⟩, [Event.next v]) := by
      simp [Subscriber.step, Subscriber.onNext, fullCaps]
    rw [hstep]
    by_cases hc2 : count ≤ (seen : Int) + 1
    · simp only [if_pos hc2]
      rw [run_append]
      have hcomp : (⟨false, fullCaps, f⟩ : Subscriber).run [Event.complete]
          = (⟨true, fullCaps, f⟩, [Event.complete]) := by
        simp [run_cons, run_nil, Subscriber.step, Subscriber.onComplete, fullCaps]
      rw [hcomp]
      rw [run_stopped _ rfl _ (take_aux_no_error count (seen + 1) rest)]
      have h1 : (count - (seen : Int)).toNat = 1 := by omega
      have h2 : count ≤ (seen : Int) + ((rest.length : Int) + 1) := by omega
      simp [h1, h2]
    · simp only [if_neg hc2, List.nil_append]
      rw [ih (seen + 1) f hc (by omega)]
      have h1 : (count - (seen : Int)).toNat = ((count - ((seen : Int) + 1)).toNat) + 1 := by
        omega
      have h2 : (count ≤ (seen : Int) + ((v :: rest).length : Int))
          ↔ (count ≤ ((seen : Nat) + 1 : Nat) + (rest.length : Int)) := by
        simp
        omega
      simp only [h1, List.take_succ_cons, List.map_cons, List.cons_append]
      congr 1
      split <;> split <;> (simp_all; try omega)

/-- C3 counterexample: for the source fromArrayLike([1]) and n = 2 > 0, the
downstream observer of take(2) receives next 1 and is never sent complete:
the source supplies fewer than n values and its own completion is not
forwarded through the operator, so take(n) does not always call the
downstream complete as the claim states. -/
theorem c3_counterexample :
    deliveredTake 2 (fromArrayLikeCalls [1]) fullCaps = [Event.next 1]
      ∧ ¬ Event.complete ∈ deliveredTake 2 (fromArrayLikeCalls [1]) fullCaps := by
  decide

/-- C3 amended: for every source call trace and count n, the full observer
downstream of take(n) receives, when n > 0, the first n values the operator
sees (fewer if the source supplies fewer) in source order followed by a
single complete exactly when at least n values arrive (the source's own
completion is never forwarded); when n <= 0 it receives nothing at all,
neither values nor completion. -/
theorem c3_take_delivered (count : Int) (upstream : List Event) :
    deliveredTake count upstream fullCaps
      = takeSpecDelivered count (gatedNexts upstream) := by
  unfold deliveredTake subscribeSync takeCalls takeSpecDelivered
  by_cases hc : 0 < count
  · have h := take_aux_run count (gatedNexts upstream) 0 [] hc (by omega)
    simp only [newSubscriber, fullCaps] at h ⊢
    rw [h]
    simp [hc]
  · rw [take_aux_nonpos count (by omega)]
    simp [run_nil, hc]

/-- C9: the derived observer that map, filter and take pass to
source.subscribe is the object spread of the downstream Subscriber, which
copies no prototype method, so it has neither an error nor a complete member;
consequently none of the three operator stages ever issues an error call
downstream, map and filter never issue a complete call downstream, and the
only complete the take stage issues is the one it triggers itself, present
exactly when its count is positive and at least count values arrive from the
source. -/
theorem c9_operators_swallow (project : Val → Val) (predicate : Val → Bool)
    (count : Int) (upstream : List Event) (e : Val) :
    spreadCaps.hasError = false
      ∧ spreadCaps.hasComplete = false
      ∧ Event.error e ∉ mapCalls project upstream
      ∧ Event.complete ∉ mapCalls project upstream
      ∧ Event.error e ∉ filterCalls predicate upstream
      ∧ Event.complete ∉ filterCalls predicate upstream
      ∧ Event.error e ∉ takeCalls count upstream
      ∧ (Event.complete ∈ takeCalls count upstream
          ↔ 0 < count ∧ count ≤ ((gatedNexts upstream).length : Int)) := by
  refine ⟨rfl, rfl, ?_, ?_, ?_, ?_, ?_, ?_⟩
  · simp [mapCalls]
  · simp [mapCalls]
  · simp only [filterCalls, List.mem_filterMap]
    rintro ⟨a, -, ha⟩
    split at ha <;> simp_all
  · simp only [filterCalls, List.mem_filterMap]
    rintro ⟨a, -, ha⟩
    split at ha <;> simp_all
  · exact take_aux_no_error count 0 (gatedNexts upstream) e
  · rw [takeCalls, take_aux_complete_mem]
    constructor
    · rintro ⟨h1, h2, -⟩
      exact ⟨h1, by push_cast at h2 ⊢; omega⟩
    · rintro ⟨h1, h2⟩
      refine ⟨h1, by push_cast; omega, ?_⟩
      rcases hvs : gatedNexts upstream with _ | ⟨w, ws⟩
      · rw [hvs] at h2
        simp at h2
        omega
      · simp
/-- Reading the entry just appended at the old length. -/
theorem get_concat_len {α : Type} (l : List α) (a : α) :
    (l ++ [a]).get? l.length = some a := by
  induction l with
  | nil => rfl
  | cons x xs ih => simp [ih]

/-- Writing back at the old length replaces the appended entry. -/
theorem set_concat_len {α : Type} (l : List α) (a b : α) :
    (l ++ [a]).set l.length b = l ++ [b] := by
  induction l with
  | nil => rfl
  | cons x xs ih => simp [ih]

/-- C10: unsubscribing the Subscriber handle returned by subject.subscribe
runs no teardown (the Subject's producer registered none), leaves the Subject
exactly as it was -- the subscriber stays in the list, unstopped -- and a
subsequent subject.next(v) still delivers next v to the unsubscribed
observer, as the final delivery of that call. -/
theorem c10_unsubscribe_noop (s : Subject) (id : Nat) (dest : Caps) (v : Val)
    (hn : dest.hasNext = true) :
    ((s.subscribeS id dest).1.unsubscribeHandle (s.subscribeS id dest).2).2 = []
      ∧ ((s.subscribeS id dest).1.unsubscribeHandle (s.subscribeS id dest).2).1
          = (s.subscribeS id dest).1
      ∧ ((((s.subscribeS id dest).1.unsubscribeHandle
            (s.subscribeS id dest).2).1.nextS v)).2.getLast?
          = some (id, Event.next v) := by
  have hgu : (s.subscribeS id dest).1.unsubscribeHandle (s.subscribeS id dest).2
      = ((s.subscribeS id dest).1, []) := by
    simp only [Subject.subscribeS, Subject.unsubscribeHandle, get_concat_len,
      Subscriber.unsubscribeRun, newSubscriber, set_concat_len]
  refine ⟨by rw [hgu], by rw [hgu], ?_⟩
  rw [hgu]
  simp only [Subject.subscribeS, Subject.nextS]
  rw [subj_next_closed, List.filter_append]
  have hnew : List.filter (fun p => !p.sub.isStopped && p.sub.dest.hasNext)
      [(⟨id, newSubscriber dest⟩ : SubjectEntry)] = [⟨id, newSubscriber dest⟩] := by
    simp [newSubscriber, hn]
  rw [hnew, List.map_append]
  simp

/-- Witness for C10 at a concrete subject, observer and value. -/
theorem c10_witness :
    fullCaps.hasNext = true
      ∧ ((((Subject.mk []).subscribeS 3 fullCaps).1.unsubscribeHandle
            ((Subject.mk []).subscribeS 3 fullCaps).2).2 = []
          ∧ (((Subject.mk []).subscribeS 3 fullCaps).1.unsubscribeHandle
              ((Subject.mk []).subscribeS 3 fullCaps).2).1
              = ((Subject.mk []).subscribeS 3 fullCaps).1
          ∧ (((((Subject.mk []).subscribeS 3 fullCaps).1.unsubscribeHandle
              ((Subject.mk []).subscribeS 3 fullCaps).2).1.nextS 9)).2.getLast?
              = some (3, Event.next 9)) :=
  ⟨rfl, c10_unsubscribe_noop (Subject.mk []) 3 fullCaps 9 rfl⟩

/-- How AsyncAction.schedule rewrites the action: the new action state is
fully determined (fresh truthy handle, given state and delay, flag set), and
the fresh repeating timer at the given delay is pending. -/
theorem scheduleA_eq (a : AsyncAction) (ts : Timers) (st : Option Int) (d : Int) :
    a.scheduleA ts st d
      = (⟨some (ts.nextId + 1), st, d, true⟩,
         ⟨ts.nextId + 1,
          (if idTruthy a._id then (clearIntervalT ts (a._id.getD 0)).live else ts.live)
            ++ [(ts.nextId + 1, d)]⟩) := by
  simp only [AsyncAction.scheduleA, setIntervalT, clearIntervalT]
  split <;> rfl

/-- A work function that never calls this.schedule leaves the action and the
platform timers untouched; only events are emitted. -/
theorem runWorkOps_no_sched (ops : List WorkOp) :
    ∀ (a : AsyncAction) (ts : Timers), (∀ op ∈ ops, isSchedOp op = false) →
    (runWorkOps a ts ops).1 = a ∧ (runWorkOps a ts ops).2.1 = ts := by
  induction ops with
  | nil => intro a ts _; exact ⟨rfl, rfl⟩
  | cons op ops ih =>
    intro a ts hops
    cases op with
    | sched st d => simp [isSchedOp] at hops
    | emit e =>
      have := ih a ts (fun op hop => hops op (List.mem_cons_of_mem _ hop))
      simpa [runWorkOps] using this

/-- A work function that calls this.schedule at least once leaves the
reentrancy flag set and the action holding a truthy handle to a pending
repeating timer. -/
theorem runWorkOps_sched (ops : List WorkOp) :
    ∀ (a : AsyncAction) (ts : Timers), (∃ op ∈ ops, isSchedOp op = true) →
    (runWorkOps a ts ops).1._padding = true
      ∧ ∃ h d2, (runWorkOps a ts ops).1._id = some h ∧ h ≠ 0
          ∧ (h, d2) ∈ (runWorkOps a ts ops).2.1.live := by
  induction ops with
  | nil => rintro a ts ⟨op, hop, -⟩; cases hop
  | cons op ops ih =>
    intro a ts hops
    cases op with
    | emit e =>
      have hex : ∃ op ∈ ops, isSchedOp op = true := by
        rcases hops with ⟨op2, hop2, hsched⟩
        rcases List.mem_cons.mp hop2 with h | h
        · subst h; cases hsched
        · exact ⟨op2, h, hsched⟩
      have := ih a ts hex
      simpa [runWorkOps] using this
    | sched st d =>
      simp only [runWorkOps]
      by_cases hex : ∃ op ∈ ops, isSchedOp op = true
      · exact ih _ _ hex
      · have hnone : ∀ op ∈ ops, isSchedOp op = false := by
          intro op2 hop2
          cases hbv : isSchedOp op2 with
          | false => rfl
          | true => exact absurd ⟨op2, hop2, hbv⟩ hex
        rcases runWorkOps_no_sched ops _ _ hnone with ⟨h1, h2⟩
        rw [h1, h2, scheduleA_eq]
        exact ⟨rfl, ts.nextId + 1, d, rfl, Nat.succ_ne_zero _, by simp⟩

/-- C6: on a tick of an action holding a live truthy timer handle, execute
clears the reentrancy flag and runs the work on the stored state; if the work
made no this.schedule call the flag is still false afterwards and execute
cancels the repeating timer and clears the handle (the one-shot case), while
if the work did call schedule the flag is found set and the action keeps a
truthy handle to a pending timer (the periodic case); in general the flag
ends true exactly when the work called schedule. -/
theorem c6_execute_cancel (work : Option Int → List WorkOp) (a : AsyncAction)
    (ts : Timers) (h : Nat) (p : Int)
    (hid : a._id = some h) (hh : h ≠ 0) (_hlive : (h, p) ∈ ts.live) :
    ((∀ op ∈ work a._state, isSchedOp op = false) →
        (a.executeA work ts).1._id = none
          ∧ ∀ q, (h, q) ∉ (a.executeA work ts).2.1.live)
      ∧ ((∃ op ∈ work a._state, isSchedOp op = true) →
          (a.executeA work ts).1._padding = true
            ∧ ∃ h2 d2, (a.executeA work ts).1._id = some h2
                ∧ (h2, d2) ∈ (a.executeA work ts).2.1.live)
      ∧ ((a.executeA work ts).1._padding = true
          ↔ ∃ op ∈ work a._state, isSchedOp op = true) := by
  have hstate : ({ a with _padding := false } : AsyncAction)._state = a._state := rfl
  refine ⟨?_, ?_, ?_⟩
  · intro hops
    have hops2 := hops
    rw [← hstate] at hops2
    unfold AsyncAction.executeA
    rcases runWorkOps_no_sched (work ({ a with _padding := false } : AsyncAction)._state)
        ({ a with _padding := false }) ts (by rw [hstate]; exact hops) with ⟨h1, h2⟩
    rw [if_pos (by rw [h1]; simp [hid, idTruthy, hh])]
    constructor
    · rfl
    · intro q hq
      rw [h2, h1] at hq
      simp [hid, clearIntervalT, List.mem_filter] at hq
  · intro hops
    unfold AsyncAction.executeA
    rcases runWorkOps_sched (work ({ a with _padding := false } : AsyncAction)._state)
        ({ a with _padding := false }) ts (by rw [hstate]; exact hops) with ⟨h1, h2, d2, h3, h4, h5⟩
    rw [if_neg (by rw [h1]; simp)]
    exact ⟨h1, h2, d2, h3, h5⟩
  · constructor
    · intro hpad
      by_contra hex
      have hnone : ∀ op ∈ work a._state, isSchedOp op = false := by
        intro op2 hop2
        cases hbv : isSchedOp op2 with
        | false => rfl
        | true => exact absurd ⟨op2, hop2, hbv⟩ hex
      unfold AsyncAction.executeA at hpad
      rcases runWorkOps_no_sched (work ({ a with _padding := false } : AsyncAction)._state)
          ({ a with _padding := false }) ts (by rw [hstate]; exact hnone) with ⟨h1, h2⟩
      rw [if_pos (by rw [h1]; simp [hid, idTruthy, hh])] at hpad
      simp [h1] at hpad
    · intro hex
      unfold AsyncAction.executeA
      rcases runWorkOps_sched (work ({ a with _padding := false } : AsyncAction)._state)
          ({ a with _padding := false }) ts (by rw [hstate]; exact hex) with ⟨h1, h2, d2, h3, h4, h5⟩
      rw [if_neg (by rw [h1]; simp)]
      exact h1

/-- Witness for C6: a one-shot work function (it only emits, never calls
this.schedule) on an action armed with live timer handle 1 at period 5. -/
theorem c6_witness :
    (AsyncAction.mk (some 1) none 5 true)._id = some 1
      ∧ (1 : Nat) ≠ 0
      ∧ ((1 : Nat), (5 : Int)) ∈ (Timers.mk 1 [((1 : Nat), (5 : Int))]).live
      ∧ (((∀ op ∈ [WorkOp.emit (Event.next 0)], isSchedOp op = false) →
            (AsyncAction.executeA (fun _ => [WorkOp.emit (Event.next 0)])
                (AsyncAction.mk (some 1) none 5 true)
                (Timers.mk 1 [((1 : Nat), (5 : Int))])).1._id = none
              ∧ ∀ q, ((1 : Nat), q) ∉ (AsyncAction.executeA (fun _ => [WorkOp.emit (Event.next 0)])
                  (AsyncAction.mk (some 1) none 5 true)
                  (Timers.mk 1 [((1 : Nat), (5 : Int))])).2.1.live)
          ∧ ((∃ op ∈ [WorkOp.emit (Event.next 0)], isSchedOp op = true) →
              (AsyncAction.executeA (fun _ => [WorkOp.emit (Event.next 0)])
                  (AsyncAction.mk (some 1) none 5 true)
                  (Timers.mk 1 [((1 : Nat), (5 : Int))])).1._padding = true
                ∧ ∃ h2 d2, (AsyncAction.executeA (fun _ => [WorkOp.emit (Event.next 0)])
                    (AsyncAction.mk (some 1) none 5 true)
                    (Timers.mk 1 [((1 : Nat), (5 : Int))])).1._id = some h2
                  ∧ (h2, d2) ∈ (AsyncAction.executeA (fun _ => [WorkOp.emit (Event.next 0)])
                      (AsyncAction.mk (some 1) none 5 true)
                      (Timers.mk 1 [((1 : Nat), (5 : Int))])).2.1.live)
          ∧ ((AsyncAction.executeA (fun _ => [WorkOp.emit (Event.next 0)])
                (AsyncAction.mk (some 1) none 5 true)
                (Timers.mk 1 [((1 : Nat), (5 : Int))])).1._padding = true
              ↔ ∃ op ∈ [WorkOp.emit (Event.next 0)], isSchedOp op = true)) :=
  ⟨rfl, by decide, by decide,
    c6_execute_cancel (fun _ => [WorkOp.emit (Event.next 0)])
      (AsyncAction.mk (some 1) none 5 true)
      (Timers.mk 1 [((1 : Nat), (5 : Int))]) 1 5 rfl (by decide) (by decide)⟩

/-- A tick of a timer with a positive interval: the work emits next(n) and
reschedules, so the action ends rearmed with a fresh truthy handle to a
pending timer at the interval and the counter and trace advance. -/
theorem timerTick_pos (cfg : TimerConfig) (hd : 0 < cfg.intervalDuration) (r : TimerRun) :
    (timerTick cfg r).n = r.n + 1
      ∧ (timerTick cfg r).trace = r.trace ++ [Event.next (r.n : Int)]
      ∧ (timerTick cfg r).act
          = ⟨some (r.ts.nextId + 1), none, cfg.intervalDuration, true⟩
      ∧ (r.ts.nextId + 1, cfg.intervalDuration) ∈ (timerTick cfg r).ts.live
      ∧ (timerTick cfg r).ts.nextId = r.ts.nextId + 1 := by
  have hops : timerWorkOps cfg.intervalDuration r.n
      = [WorkOp.emit (Event.next (r.n : Int)), WorkOp.sched none cfg.intervalDuration] := by
    simp [timerWorkOps, hd]
  have hstep : AsyncAction.executeA (fun _ => timerWorkOps cfg.intervalDuration r.n) r.act r.ts
      = (⟨some (r.ts.nextId + 1), none, cfg.intervalDuration, true⟩,
         ⟨r.ts.nextId + 1,
          (if idTruthy r.act._id then (clearIntervalT r.ts (r.act._id.getD 0)).live
           else r.ts.live) ++ [(r.ts.nextId + 1, cfg.intervalDuration)]⟩,
         [Event.next (r.n : Int)]) := by
    simp only [AsyncAction.executeA]
    rw [hops]
    simp only [runWorkOps, scheduleA_eq]
    rw [if_neg (by simp)]
  simp only [timerTick, hstep]
  simp

/-- Invariant of a positive-interval timer after m ticks: the counter is m,
the trace is next 0 .. next (m-1), and the action holds a truthy handle to a
pending repeating timer. -/
theorem timer_inv (cfg : TimerConfig) (ts : Timers) (hd : 0 < cfg.intervalDuration) (m : Nat) :
    (timerRun cfg ts m).n = m
      ∧ (timerRun cfg ts m).trace = (List.range m).map (fun k => Event.next (k : Int))
      ∧ ∃ h pr, (timerRun cfg ts m).act._id = some h ∧ h ≠ 0
          ∧ (h, pr) ∈ (timerRun cfg ts m).ts.live := by
  induction m with
  | zero =>
    refine ⟨rfl, rfl, ts.nextId + 1, cfg.dueTime, ?_, Nat.succ_ne_zero _, ?_⟩
    · simp [timerRun, timerSubscribe, scheduleA_eq]
    · simp [timerRun, timerSubscribe, scheduleA_eq]
  | succ m ih =>
    rcases ih with ⟨hn, htr, -⟩
    rcases timerTick_pos cfg hd (timerRun cfg ts m) with ⟨t1, t2, t3, t4, -⟩
    refine ⟨?_, ?_, ?_⟩
    · show (timerTick cfg (timerRun cfg ts m)).n = m + 1
      rw [t1, hn]
    · show (timerTick cfg (timerRun cfg ts m)).trace = _
      rw [t2, htr, hn, List.range_succ]
      simp
    · refine ⟨(timerRun cfg ts m).ts.nextId + 1, cfg.intervalDuration, ?_,
        Nat.succ_ne_zero _, ?_⟩
      · show (timerTick cfg (timerRun cfg ts m)).act._id = _
        rw [t3]
      · exact t4

/-- C7: timer(dueTime, ...) arms a fresh action at delay dueTime with a
pending repeating timer at that period and emits nothing before the first
tick; when a positive numeric interval is configured, after any m ticks the
subscriber has been sent exactly next 0 .. next (m-1), never complete, and
the action still holds a pending timer (it reschedules indefinitely); when no
positive numeric interval is configured, the first tick sends next 0 then
complete and cancels the timer, clearing the handle; and interval(period,
scheduler) is literally timer(period, period, scheduler), so its first
emission is likewise scheduled one full period out. -/
theorem c7_timer_interval (due : Int) (ios : Option IntervalOrScheduler) (ts : Timers)
    (m : Nat) (p : Int) :
    ((timerSubscribe (timerConfig due ios) ts).act._delay = due
        ∧ (timerSubscribe (timerConfig due ios) ts).act._id = some (ts.nextId + 1)
        ∧ (ts.nextId + 1, due) ∈ (timerSubscribe (timerConfig due ios) ts).ts.live
        ∧ (timerSubscribe (timerConfig due ios) ts).trace = []
        ∧ (timerSubscribe (timerConfig due ios) ts).n = 0)
      ∧ (0 < timerIntervalDuration ios →
          (timerRun (timerConfig due ios) ts m).trace
              = (List.range m).map (fun k => Event.next (k : Int))
            ∧ Event.complete ∉ (timerRun (timerConfig due ios) ts m).trace
            ∧ ∃ h pr, (timerRun (timerConfig due ios) ts m).act._id = some h
                ∧ (h, pr) ∈ (timerRun (timerConfig due ios) ts m).ts.live)
      ∧ (timerIntervalDuration ios ≤ 0 →
          (timerRun (timerConfig due ios) ts 1).trace = [Event.next 0, Event.complete]
            ∧ (timerRun (timerConfig due ios) ts 1).act._id = none
            ∧ ∀ q, (ts.nextId + 1, q) ∉ (timerRun (timerConfig due ios) ts 1).ts.live)
      ∧ (intervalConfig p = timerConfig p (some (IntervalOrScheduler.num p))
          ∧ (timerSubscribe (intervalConfig p) ts).act._delay = p) := by
  refine ⟨?_, ?_, ?_, rfl, ?_⟩
  · refine ⟨?_, ?_, ?_, rfl, rfl⟩ <;>
      simp [timerSubscribe, scheduleA_eq, timerConfig]
  · intro hd
    rcases timer_inv (timerConfig due ios) ts hd m with ⟨-, htr, hex⟩
    refine ⟨htr, ?_, ?_⟩
    · rw [htr]
      simp
    · rcases hex with ⟨h, pr, h1, -, h3⟩
      exact ⟨h, pr, h1, h3⟩
  · intro hd
    have hneg : ¬ (0 : Int) < (timerConfig due ios).intervalDuration := by
      simp only [timerConfig]
      omega
    have htr : idTruthy (some (ts.nextId + 1)) = true := by
      simp [idTruthy]
    refine ⟨?_, ?_, ?_⟩
    · simp [timerRun, timerTick, timerSubscribe, AsyncAction.executeA, timerWorkOps,
        hneg, runWorkOps, scheduleA_eq, htr]
    · simp [timerRun, timerTick, timerSubscribe, AsyncAction.executeA, timerWorkOps,
        hneg, runWorkOps, scheduleA_eq, htr]
    · intro q
      simp [timerRun, timerTick, timerSubscribe, AsyncAction.executeA, timerWorkOps,
        hneg, runWorkOps, scheduleA_eq, htr, clearIntervalT, List.mem_filter]
  · simp [intervalConfig, timerSubscribe, scheduleA_eq, timerConfig]

/-- Witness for C7: timer(100, 50) has a positive interval and after 3 ticks
has emitted next 0, 1, 2; timer(100) has no interval and its single tick
emits next 0 then complete. -/
theorem c7_witness :
    0 < timerIntervalDuration (some (IntervalOrScheduler.num 50))
      ∧ (timerRun (timerConfig 100 (some (IntervalOrScheduler.num 50))) (Timers.mk 0 []) 3).trace
          = (List.range 3).map (fun k => Event.next (k : Int))
      ∧ timerIntervalDuration none ≤ 0
      ∧ (timerRun (timerConfig 100 none) (Timers.mk 0 []) 1).trace
          = [Event.next 0, Event.complete] :=
  ⟨by decide,
   ((c7_timer_interval 100 (some (IntervalOrScheduler.num 50)) (Timers.mk 0 []) 3 100).2.1
      (by decide)).1,
   by decide,
   ((c7_timer_interval 100 none (Timers.mk 0 []) 1 100).2.2.1 (by decide)).1⟩

end GRxjs
